import Mathlib

/-!
Verification development for the SHL assessment recommendation system.

The repository's checked-in code is the React frontend (`App.tsx`,
`types.ts`, `api.ts`, `ResultCard.tsx`); those files are embedded
directly below.  The backend retrieval/ranking core described by the
specification (QueryAnalyzer, Retriever, Balancer/Ranker) is not part
of the checked-in sources, so it is modelled from the specification's
words (each such definition is marked `Modelled from the spec:`).
-/

namespace SHL

/-- Modelled from the spec: the closed set of category kinds used by the
Balancer when bucketing candidates — technical-type tags
(Knowledge-&-Skills style) vs behavioral-type tags
(Personality-&-Behavior style) vs other (e.g. Cognitive-Ability). -/
inductive Category
  | technical
  | behavioral
  | other
  deriving DecidableEq, Repr

/-- Modelled from the spec: the facet labels the QueryAnalyzer produces
(`technical`, `behavioral`, `general`). -/
inductive Facet
  | technical
  | behavioral
  | general
  deriving DecidableEq, Repr

/-- Modelled from the spec: a ScoredCandidate — a CatalogEntry reference
(by identifier, with its primary category tag) plus a similarity score
(lower distance = higher relevance) and the facet that produced it. -/
structure ScoredCandidate where
  entryId : Nat
  score : Nat
  category : Category
  facet : Facet
  deriving DecidableEq, Repr

/-- Modelled from the spec (§4.3 step 4): candidates are ranked by
ascending similarity distance, ties broken by catalog identifier. -/
def candR (a b : ScoredCandidate) : Prop :=
  a.score < b.score ∨ (a.score = b.score ∧ a.entryId ≤ b.entryId)

/-- The corresponding strict order: `a` is strictly better ranked than `b`. -/
def candLT (a b : ScoredCandidate) : Prop :=
  a.score < b.score ∨ (a.score = b.score ∧ a.entryId < b.entryId)

instance : DecidableRel candR := fun a b => by
  unfold candR; exact inferInstance

instance : DecidableRel candLT := fun a b => by
  unfold candLT; exact inferInstance

instance : IsTotal ScoredCandidate candR := ⟨by
  intro a b; unfold candR; omega⟩

instance : IsTrans ScoredCandidate candR := ⟨by
  intro a b c; unfold candR; omega⟩

/-- Sorting a candidate list best-first (§4.3 step 4). -/
def sortCands (l : List ScoredCandidate) : List ScoredCandidate :=
  List.insertionSort candR l

/-- Keep the better (lower) of the stored score and `c`'s score when `a`
refers to the same catalog entry as `c`. -/
def updScore (c a : ScoredCandidate) : ScoredCandidate :=
  if a.entryId = c.entryId ∧ c.score < a.score then { a with score := c.score } else a

/-- One step of deduplication: fold `c` into the accumulated unique list,
either improving the stored score of an existing entry or appending `c`. -/
def dedupInsert (acc : List ScoredCandidate) (c : ScoredCandidate) :
    List ScoredCandidate :=
  if acc.any (fun a => a.entryId = c.entryId) then
    acc.map (updScore c)
  else
    acc ++ [c]

/-- Modelled from the spec (§4.3 step 1): deduplicate by entry identifier,
keeping per entry the lowest (best) similarity score seen across all
facets. -/
def dedup (cs : List ScoredCandidate) : List ScoredCandidate :=
  cs.foldl dedupInsert []

/-- The fixed output size budget of the Balancer (`targetSize`, §4.3). -/
def targetSize : Nat := 10

/-- Modelled from the spec (§4.3 step 2): bucket the unique candidates of
`u` by primary category tag, each bucket ranked best-first. -/
def bucketOf (u : List ScoredCandidate) (cat : Category) : List ScoredCandidate :=
  sortCands (u.filter (fun x => x.category = cat))

/-- Modelled from the spec (§4.3 step 3): both facet kinds were present in
the query exactly when both a technical-facet and a behavioral-facet
candidate occur in the merged pool. -/
def bothFacets (cs : List ScoredCandidate) : Bool :=
  cs.any (fun x => x.facet = Facet.technical) &&
    cs.any (fun x => x.facet = Facet.behavioral)

/-- Modelled from the spec (§4.3 step 3): the technical quota — close to a
50/50 split of `targetSize`, rounding the larger half toward whichever
facet had more original candidates. -/
def quotaTech (cs : List ScoredCandidate) : Nat :=
  if (cs.filter (fun x => x.facet = Facet.behavioral)).length ≤
      (cs.filter (fun x => x.facet = Facet.technical)).length then
    (targetSize + 1) / 2
  else
    targetSize / 2

/-- Modelled from the spec (§4.3 step 5): the quota-filled slots — the
technical bucket's quota and the behavioral bucket's quota, in rank
order. -/
def primaryOf (cs : List ScoredCandidate) : List ScoredCandidate :=
  sortCands ((bucketOf (dedup cs) Category.technical).take (quotaTech cs)
    ++ (bucketOf (dedup cs) Category.behavioral).take (targetSize - quotaTech cs))

/-- Modelled from the spec (§4.3 step 5): rollover — everything left after
the quotas, by next-best score regardless of category. -/
def rolloverOf (cs : List ScoredCandidate) : List ScoredCandidate :=
  sortCands ((bucketOf (dedup cs) Category.technical).drop (quotaTech cs)
    ++ (bucketOf (dedup cs) Category.behavioral).drop (targetSize - quotaTech cs)
    ++ bucketOf (dedup cs) Category.other)

/-- Modelled from the spec (§4.3): `rank` — deduplicate, bucket, balance
when both facet kinds were present (otherwise fill purely by best score
with no quota), and truncate to `targetSize`. -/
def rank (cs : List ScoredCandidate) : List ScoredCandidate :=
  if bothFacets cs then
    (primaryOf cs ++ rolloverOf cs).take targetSize
  else
    (sortCands (dedup cs)).take targetSize

/-- Count of result entries carrying a given category. -/
def countCat (l : List ScoredCandidate) (cat : Category) : Nat :=
  (l.filter (fun x => x.category = cat)).length

/-! ## The frontend, embedded from `frontend/src` -/

/-- The `Assessment` record of `frontend/src/types.ts`. -/
structure Assessment where
  url : String
  name : String
  adaptive_support : String
  description : String
  duration : Nat
  remote_support : String
  test_type : List String
  deriving DecidableEq, Repr

/-- Modelled from the spec (§3): a CatalogEntry — identifier, name,
canonical URL, category tags, duration in minutes, remote-support flag,
adaptive-support flag, free-text description (the embedding vector is
irrelevant to the claims and omitted). -/
structure CatalogEntry where
  id : Nat
  name : String
  url : String
  test_type : List String
  duration : Nat
  remote_support : String
  adaptive_support : String
  description : String
  deriving DecidableEq, Repr

/-- The projection of a CatalogEntry to the displayed `Assessment` record
(spec §6 output boundary / `types.ts`). -/
def project (e : CatalogEntry) : Assessment :=
  { url := e.url
    name := e.name
    adaptive_support := e.adaptive_support
    description := e.description
    duration := e.duration
    remote_support := e.remote_support
    test_type := e.test_type }

/-- Resolving ranked candidates to displayed records through the catalog. -/
def toResult (catalog : Nat → CatalogEntry) (cs : List ScoredCandidate) :
    List Assessment :=
  cs.map (fun c => project (catalog c.entryId))

/-- `!query.trim()` of `App.tsx`: the text is empty or all whitespace. -/
def isBlank (s : String) : Bool :=
  s.data.all Char.isWhitespace

/-- The error message of the `App.tsx` empty-query guard. -/
def emptyQueryMsg : String := "Please enter a query or URL"

/-- The error message `App.tsx` shows for an empty result list. -/
def noResultsMsg : String := "No assessments found. Try a different query."

/-- The fallback error message of the `App.tsx` catch branch. -/
def fetchFailMsg : String :=
  "Failed to fetch recommendations. Ensure backend is running on port 8000"

/-- The component state of `App.tsx` (`query`, `loading`, `results`,
`error`). -/
structure AppState where
  query : String
  loading : Bool
  results : List Assessment
  error : Option String
  deriving DecidableEq, Repr

/-- The outcome of the `getRecommendations` call in `api.ts`: a response
body, or a thrown error whose optional `response.data.detail` is kept. -/
inductive ApiOutcome
  | success (assessments : List Assessment)
  | failure (detail : Option String)
  deriving DecidableEq, Repr

/-- `handleSearch` of `App.tsx` as a state transformer.  The `ApiOutcome`
parameter stands for what the awaited API call would do; the returned
flag records whether that call was reached.  A blank query returns early
with only the error message set; a successful response stores the
results and flags emptiness; a thrown error keeps the previous results
and sets the error detail (or the fallback message). -/
def handleSearch (st : AppState) (api : ApiOutcome) : AppState × Bool :=
  if isBlank st.query then
    ({ st with error := some emptyQueryMsg }, false)
  else
    match api with
    | ApiOutcome.success assessments =>
      ({ st with
          loading := false
          results := assessments
          error := if assessments.isEmpty then some noResultsMsg else none }, true)
    | ApiOutcome.failure detail =>
      ({ st with
          loading := false
          error := some (detail.getD fetchFailMsg) }, true)

/-- The class string `ResultCard.tsx` puts on the Remote icon:
`data.remote_support === 'Yes' ? 'text-green-500' : 'text-gray-400'`. -/
def remoteIconClass (a : Assessment) : String :=
  if a.remote_support = "Yes" then "text-green-500" else "text-gray-400"

/-- The class string `ResultCard.tsx` puts on the Adaptive icon:
`data.adaptive_support === 'Yes' ? 'text-purple-500' : 'text-gray-400'`. -/
def adaptiveIconClass (a : Assessment) : String :=
  if a.adaptive_support = "Yes" then "text-purple-500" else "text-gray-400"

/-! ## The request pipeline, modelled from the spec -/

/-- Modelled from the spec (§7): the fatal failure conditions of the
pipeline (`AnalyzerDegraded` is non-fatal and `EmptyResult` is not an
error, so neither appears here). -/
inductive PipelineError
  | InvalidQuery
  | RetrievalUnavailable
  deriving DecidableEq, Repr

/-- Modelled from the spec (§3): QueryFacets — labeled text spans
extracted from one input query. -/
structure QueryFacets where
  facets : List (Facet × String)
  deriving DecidableEq, Repr

/-- Modelled from the spec (§2, §6): the similarity index capability —
whether it is reachable, and the scored candidates nearest to a facet
text (the embedding step is folded into the lookup, both being pure
functions). -/
structure SimilarityIndex where
  available : Bool
  nearest : String → List ScoredCandidate

/-- Modelled from the spec (§4.1): `analyze` — empty/whitespace input
fails with `InvalidQuery`; otherwise the understanding service's facets
are used, degrading to a single `general` facet holding the raw text
when the service gives nothing. -/
def analyze (raw : String) (svc : Option QueryFacets) :
    Except PipelineError QueryFacets :=
  if isBlank raw then
    Except.error PipelineError.InvalidQuery
  else
    match svc with
    | some f => Except.ok f
    | none => Except.ok ⟨[(Facet.general, raw)]⟩

/-- Modelled from the spec (§4.2): `retrieve` — fail with
`RetrievalUnavailable` when the index is unreachable; otherwise
concatenate each facet's nearest candidates, labeling each candidate
with its originating facet. -/
def retrieve (idx : SimilarityIndex) (f : QueryFacets) :
    Except PipelineError (List ScoredCandidate) :=
  if idx.available then
    Except.ok (f.facets.foldr
      (fun p acc => ((idx.nearest p.2).map (fun c => { c with facet := p.1 })) ++ acc)
      [])
  else
    Except.error PipelineError.RetrievalUnavailable

/-- Modelled from the spec (§2 data flow): the whole pipeline — analyze,
retrieve, rank, propagating the first failure. -/
def pipeline (raw : String) (svc : Option QueryFacets) (idx : SimilarityIndex) :
    Except PipelineError (List ScoredCandidate) :=
  match analyze raw svc with
  | Except.error e => Except.error e
  | Except.ok f =>
    match retrieve idx f with
    | Except.error e => Except.error e
    | Except.ok cs => Except.ok (rank cs)

end SHL

namespace SHL

/-! ## Deduplication lemmas -/

theorem updScore_entryId (c a : ScoredCandidate) :
    (updScore c a).entryId = a.entryId := by
  unfold updScore; split <;> rfl

theorem updScore_score_le (c a : ScoredCandidate) :
    (updScore c a).score ≤ a.score := by
  unfold updScore; split <;> simp_all
  omega

theorem updScore_score_le_c (c a : ScoredCandidate) (h : a.entryId = c.entryId) :
    (updScore c a).score ≤ c.score := by
  unfold updScore; split <;> simp_all

theorem not_any_entryId {acc : List ScoredCandidate} {c : ScoredCandidate}
    (h : acc.any (fun a => a.entryId = c.entryId) = false) :
    ∀ a ∈ acc, a.entryId ≠ c.entryId := by
  intro a ha
  simpa using List.any_eq_false.mp h a ha

theorem map_entryId_updScore (acc : List ScoredCandidate) (c : ScoredCandidate) :
    (acc.map (updScore c)).map ScoredCandidate.entryId =
      acc.map ScoredCandidate.entryId := by
  rw [List.map_map]
  exact List.map_congr_left fun a _ => updScore_entryId c a

theorem mem_map_entryId_dedupInsert (acc : List ScoredCandidate)
    (c : ScoredCandidate) (i : Nat) :
    i ∈ (dedupInsert acc c).map ScoredCandidate.entryId ↔
      i ∈ acc.map ScoredCandidate.entryId ∨ i = c.entryId := by
  unfold dedupInsert
  cases hany : acc.any (fun a => a.entryId = c.entryId) with
  | true =>
    simp only [hany, if_true, map_entryId_updScore]
    constructor
    · exact fun h => Or.inl h
    · rintro (h | rfl)
      · exact h
      · obtain ⟨a, ha, hid⟩ := List.any_eq_true.mp hany
        simp only [decide_eq_true_eq] at hid
        exact List.mem_map.mpr ⟨a, ha, hid⟩
  | false =>
    simp [hany, List.map_append, or_comm]

theorem nodup_ids_dedupInsert (acc : List ScoredCandidate) (c : ScoredCandidate)
    (h : (acc.map ScoredCandidate.entryId).Nodup) :
    ((dedupInsert acc c).map ScoredCandidate.entryId).Nodup := by
  unfold dedupInsert
  cases hany : acc.any (fun a => a.entryId = c.entryId) with
  | true => simpa only [if_true, map_entryId_updScore] using h
  | false =>
    show (((acc ++ [c]).map ScoredCandidate.entryId)).Nodup
    rw [List.map_append]
    rw [List.nodup_append]
    refine ⟨h, List.nodup_singleton _, ?_⟩
    intro i hi hic
    simp only [List.map_cons, List.map_nil, List.mem_singleton] at hic
    subst hic
    obtain ⟨a, ha, hid⟩ := List.mem_map.mp hi
    exact not_any_entryId hany a ha hid

theorem ids_mono_foldl (cs : List ScoredCandidate) :
    ∀ (acc : List ScoredCandidate) (i : Nat),
      i ∈ acc.map ScoredCandidate.entryId →
        i ∈ (cs.foldl dedupInsert acc).map ScoredCandidate.entryId := by
  induction cs with
  | nil => intro acc i h; simpa using h
  | cons c cs ih =>
    intro acc i h
    rw [List.foldl_cons]
    exact ih _ i ((mem_map_entryId_dedupInsert acc c i).mpr (Or.inl h))

theorem ids_subset_foldl (cs : List ScoredCandidate) :
    ∀ (acc : List ScoredCandidate) (x : ScoredCandidate), x ∈ cs →
      x.entryId ∈ (cs.foldl dedupInsert acc).map ScoredCandidate.entryId := by
  induction cs with
  | nil => intro acc x h; cases h
  | cons c cs ih =>
    intro acc x hx
    rw [List.foldl_cons]
    rcases List.mem_cons.mp hx with rfl | hx
    · exact ids_mono_foldl cs _ x.entryId
        ((mem_map_entryId_dedupInsert acc x x.entryId).mpr (Or.inr rfl))
    · exact ih _ x hx

theorem nodup_ids_foldl (cs : List ScoredCandidate) :
    ∀ acc : List ScoredCandidate, (acc.map ScoredCandidate.entryId).Nodup →
      ((cs.foldl dedupInsert acc).map ScoredCandidate.entryId).Nodup := by
  induction cs with
  | nil => intro acc h; simpa using h
  | cons c cs ih =>
    intro acc h
    rw [List.foldl_cons]
    exact ih _ (nodup_ids_dedupInsert acc c h)

theorem nodup_ids_dedup (cs : List ScoredCandidate) :
    ((dedup cs).map ScoredCandidate.entryId).Nodup :=
  nodup_ids_foldl cs [] (by simp)

theorem dedupInsert_mem_exists {acc : List ScoredCandidate}
    {c d : ScoredCandidate} (hd : d ∈ dedupInsert acc c) :
    ∃ x, (x ∈ acc ∨ x = c) ∧ x.entryId = d.entryId ∧ x.score = d.score := by
  unfold dedupInsert at hd
  split at hd
  · obtain ⟨a, ha, hEq⟩ := List.mem_map.mp hd
    by_cases hc : a.entryId = c.entryId ∧ c.score < a.score
    · refine ⟨c, Or.inr rfl, ?_, ?_⟩ <;>
        simp [updScore, hc] at hEq <;> simp [← hEq, hc.1]
    · refine ⟨a, Or.inl ha, ?_, ?_⟩ <;> simp [updScore, hc] at hEq <;> simp [hEq]
  · rcases List.mem_append.mp hd with h | h
    · exact ⟨d, Or.inl h, rfl, rfl⟩
    · simp only [List.mem_singleton] at h
      exact ⟨c, Or.inr rfl, by rw [h], by rw [h]⟩

theorem foldl_score_surj (cs : List ScoredCandidate) :
    ∀ (acc : List ScoredCandidate) (d : ScoredCandidate),
      d ∈ cs.foldl dedupInsert acc →
        ∃ x, (x ∈ acc ∨ x ∈ cs) ∧ x.entryId = d.entryId ∧ x.score = d.score := by
  induction cs with
  | nil => intro acc d hd; exact ⟨d, Or.inl (by simpa using hd), rfl, rfl⟩
  | cons c cs ih =>
    intro acc d hd
    rw [List.foldl_cons] at hd
    obtain ⟨x, hx, hxid, hxsc⟩ := ih _ d hd
    rcases hx with hx | hx
    · obtain ⟨y, hy, hyid, hysc⟩ := dedupInsert_mem_exists hx
      rcases hy with hy | rfl
      · exact ⟨y, Or.inl hy, hyid.trans hxid, hysc.trans hxsc⟩
      · exact ⟨y, Or.inr (List.mem_cons_self y cs), hyid.trans hxid, hysc.trans hxsc⟩
    · exact ⟨x, Or.inr (List.mem_cons_of_mem c hx), hxid, hxsc⟩

theorem foldl_score_bound (cs : List ScoredCandidate) :
    ∀ (acc : List ScoredCandidate) (i : Nat) (s : Nat),
      i ∈ acc.map ScoredCandidate.entryId →
      (∀ a ∈ acc, a.entryId = i → a.score ≤ s) →
      ∀ d ∈ cs.foldl dedupInsert acc, d.entryId = i → d.score ≤ s := by
  induction cs with
  | nil => intro acc i s _ hbd d hd hdi; exact hbd d (by simpa using hd) hdi
  | cons c cs ih =>
    intro acc i s hmem hbd d hd hdi
    rw [List.foldl_cons] at hd
    refine ih _ i s ((mem_map_entryId_dedupInsert acc c i).mpr (Or.inl hmem)) ?_ d hd hdi
    intro a' ha' ha'i
    unfold dedupInsert at ha'
    split at ha'
    · obtain ⟨a, ha, hEq⟩ := List.mem_map.mp ha'
      have hid : a.entryId = i := by rw [← ha'i, ← hEq, updScore_entryId]
      calc (a').score = (updScore c a).score := by rw [← hEq]
        _ ≤ a.score := updScore_score_le c a
        _ ≤ s := hbd a ha hid
    · next hany =>
      rcases List.mem_append.mp ha' with h | h
      · exact hbd a' h ha'i
      · simp only [List.mem_singleton] at h
        subst h
        obtain ⟨a₀, ha₀, h₀⟩ := List.mem_map.mp hmem
        exact absurd (h₀.trans ha'i.symm)
          (not_any_entryId (Bool.of_not_eq_true hany) a₀ ha₀)

end SHL

namespace SHL

theorem foldl_score_min (cs : List ScoredCandidate) :
    ∀ (acc : List ScoredCandidate) (d : ScoredCandidate),
      d ∈ cs.foldl dedupInsert acc →
        ∀ x ∈ cs, x.entryId = d.entryId → d.score ≤ x.score := by
  induction cs with
  | nil => intro acc d _ x hx; cases hx
  | cons c cs ih =>
    intro acc d hd x hx hid
    rw [List.foldl_cons] at hd
    rcases List.mem_cons.mp hx with rfl | hx
    · refine foldl_score_bound cs (dedupInsert acc x) x.entryId x.score
        ((mem_map_entryId_dedupInsert acc x x.entryId).mpr (Or.inr rfl)) ?_ d hd hid.symm
      intro a ha hai
      unfold dedupInsert at ha
      split at ha
      · obtain ⟨a₀, ha₀, hEq⟩ := List.mem_map.mp ha
        have : a₀.entryId = x.entryId := by rw [← hai, ← hEq, updScore_entryId]
        calc a.score = (updScore x a₀).score := by rw [← hEq]
          _ ≤ x.score := updScore_score_le_c x a₀ this
      · next hany =>
        rcases List.mem_append.mp ha with h | h
        · exact absurd hai (not_any_entryId (Bool.of_not_eq_true hany) a h)
        · simp only [List.mem_singleton] at h
          exact Nat.le_of_eq (by rw [h])
    · exact ih _ d hd x hx hid

/-- C3: the deduplication step of `rank` collapses all candidates sharing
an entry identifier into a single entry (identifiers in `dedup cs` are
unique and cover every candidate), and the retained similarity score of
each surviving entry is the lowest (best) score seen for that identifier
across all facets. -/
theorem dedup_collapses_keeping_best_score (cs : List ScoredCandidate) :
    ((dedup cs).map ScoredCandidate.entryId).Nodup ∧
    (∀ c, c ∈ cs → ∃ d, d ∈ dedup cs ∧ d.entryId = c.entryId) ∧
    (∀ d, d ∈ dedup cs →
      (∃ x, x ∈ cs ∧ x.entryId = d.entryId ∧ x.score = d.score) ∧
      (∀ x, x ∈ cs → x.entryId = d.entryId → d.score ≤ x.score)) := by
  refine ⟨nodup_ids_dedup cs, ?_, ?_⟩
  · intro c hc
    obtain ⟨d, hd, hdi⟩ := List.mem_map.mp (ids_subset_foldl cs [] c hc)
    exact ⟨d, hd, hdi⟩
  · intro d hd
    constructor
    · obtain ⟨x, hx, hxi, hxs⟩ := foldl_score_surj cs [] d hd
      rcases hx with hx | hx
      · cases hx
      · exact ⟨x, hx, hxi, hxs⟩
    · exact fun x hx => foldl_score_min cs [] d hd x hx

end SHL

namespace SHL

/-! ## Bucketing and permutation lemmas -/

theorem perm_bucketOf (u : List ScoredCandidate) (cat : Category) :
    List.Perm (bucketOf u cat) (u.filter (fun x => x.category = cat)) :=
  List.perm_insertionSort candR _

theorem mem_bucketOf {u : List ScoredCandidate} {cat : Category}
    {x : ScoredCandidate} : x ∈ bucketOf u cat ↔ x ∈ u ∧ x.category = cat := by
  unfold bucketOf sortCands
  rw [List.mem_insertionSort, List.mem_filter]
  simp

theorem filter_partition (u : List ScoredCandidate) :
    List.Perm (u.filter (fun x => x.category = Category.technical)
      ++ (u.filter (fun x => x.category = Category.behavioral)
        ++ u.filter (fun x => x.category = Category.other))) u := by
  induction u with
  | nil => simp
  | cons x u ih =>
    cases hx : x.category with
    | technical =>
      simp only [List.filter_cons, hx, decide_True, decide_False, if_true, if_false,
        List.cons_append]
      exact ih.cons x
    | behavioral =>
      simp only [List.filter_cons, hx, decide_True, decide_False, if_true, if_false,
        List.cons_append]
      exact List.perm_middle.trans (ih.cons x)
    | other =>
      simp only [List.filter_cons, hx, decide_True, decide_False, if_true, if_false,
        List.cons_append]
      exact ((List.perm_middle.append_left _).trans List.perm_middle).trans (ih.cons x)

theorem append_shuffle (a b c d e : List ScoredCandidate) :
    List.Perm ((a ++ b) ++ ((c ++ d) ++ e)) ((a ++ c) ++ ((b ++ d) ++ e)) := by
  refine List.perm_iff_count.mpr fun x => ?_
  simp only [List.count_append]
  omega

theorem rank_both_perm (cs : List ScoredCandidate) :
    List.Perm (primaryOf cs ++ rolloverOf cs) (dedup cs) := by
  unfold primaryOf rolloverOf sortCands
  refine List.Perm.trans
    (List.Perm.append (List.perm_insertionSort candR _)
      (List.perm_insertionSort candR _)) ?_
  refine List.Perm.trans (append_shuffle _ _ _ _ _) ?_
  rw [List.take_append_drop, List.take_append_drop]
  refine List.Perm.trans
    (List.Perm.append (perm_bucketOf _ _)
      (List.Perm.append (perm_bucketOf _ _) (perm_bucketOf _ _))) ?_
  exact filter_partition _

/-- C1: for every candidate pool (so in particular for every non-empty
query producing at least one facet), the output of `rank` has size at
most `targetSize` and contains no two elements with the same entry
identifier. -/
theorem rank_size_le_and_no_duplicate_ids (cs : List ScoredCandidate) :
    (rank cs).length ≤ targetSize ∧
      ((rank cs).map ScoredCandidate.entryId).Nodup := by
  unfold rank
  split
  · refine ⟨List.length_take_le _ _, ?_⟩
    have hperm : List.Perm ((primaryOf cs ++ rolloverOf cs).map ScoredCandidate.entryId)
        ((dedup cs).map ScoredCandidate.entryId) := (rank_both_perm cs).map _
    have hnd : ((primaryOf cs ++ rolloverOf cs).map ScoredCandidate.entryId).Nodup :=
      hperm.nodup_iff.mpr (nodup_ids_dedup cs)
    exact (((primaryOf cs ++ rolloverOf cs).take_sublist targetSize).map
      ScoredCandidate.entryId).nodup hnd
  · refine ⟨List.length_take_le _ _, ?_⟩
    have hperm : List.Perm ((sortCands (dedup cs)).map ScoredCandidate.entryId)
        ((dedup cs).map ScoredCandidate.entryId) :=
      (List.perm_insertionSort candR _).map _
    have hnd : ((sortCands (dedup cs)).map ScoredCandidate.entryId).Nodup :=
      hperm.nodup_iff.mpr (nodup_ids_dedup cs)
    exact (((sortCands (dedup cs)).take_sublist targetSize).map
      ScoredCandidate.entryId).nodup hnd

end SHL

namespace SHL

/-! ## Order lemmas for the balanced selection -/

theorem candLT_asymm {c d : ScoredCandidate} (h1 : candLT c d) (h2 : candR d c) :
    False := by
  unfold candLT at h1
  unfold candR at h2
  omega

theorem sorted_sortCands (l : List ScoredCandidate) :
    List.Sorted candR (sortCands l) :=
  List.sorted_insertionSort candR l

theorem mem_sortCands {l : List ScoredCandidate} {x : ScoredCandidate} :
    x ∈ sortCands l ↔ x ∈ l :=
  List.mem_insertionSort candR

theorem sorted_bucketOf (u : List ScoredCandidate) (cat : Category) :
    List.Sorted candR (bucketOf u cat) :=
  List.sorted_insertionSort candR _

/-- In a sorted list, whenever some element of the first `n` slots is
strictly worse than `c`, then `c` (if present at all) is also inside the
first `n` slots. -/
theorem mem_take_of_sorted {l : List ScoredCandidate}
    (hs : List.Sorted candR l) {n : Nat} {c d : ScoredCandidate}
    (hd : d ∈ l.take n) (hc : c ∈ l) (hlt : candLT c d) : c ∈ l.take n := by
  by_cases hcc : c ∈ l.take n
  · exact hcc
  · exfalso
    have hcd : c ∈ l.drop n := by
      rw [← List.take_append_drop n l] at hc
      rcases List.mem_append.mp hc with h | h
      · exact absurd h hcc
      · exact h
    have hpw : List.Pairwise candR (l.take n ++ l.drop n) := by
      rw [List.take_append_drop]
      exact hs
    exact candLT_asymm hlt ((List.pairwise_append.mp hpw).2.2 d hd c hcd)

theorem quotaTech_le (cs : List ScoredCandidate) : quotaTech cs ≤ targetSize := by
  unfold quotaTech targetSize
  split <;> omega

theorem length_primaryOf_le (cs : List ScoredCandidate) :
    (primaryOf cs).length ≤ targetSize := by
  unfold primaryOf sortCands
  rw [(List.perm_insertionSort candR _).length_eq, List.length_append]
  have h1 := List.length_take_le (quotaTech cs)
    (bucketOf (dedup cs) Category.technical)
  have h2 := List.length_take_le (targetSize - quotaTech cs)
    (bucketOf (dedup cs) Category.behavioral)
  have h3 := quotaTech_le cs
  omega

/-- Within any single category bucket, the set of candidates `rank`
includes is downward closed under the ranking order: a strictly
better-ranked unique candidate of the same category as an included one
is itself included. -/
theorem rank_downward {cs : List ScoredCandidate} {c d : ScoredCandidate}
    (hd : d ∈ rank cs) (hc : c ∈ dedup cs) (hcat : c.category = d.category)
    (hlt : candLT c d) : c ∈ rank cs := by
  unfold rank at hd ⊢
  by_cases hbf : bothFacets cs = true
  · rw [if_pos hbf] at hd ⊢
    have hplen := length_primaryOf_le cs
    rw [List.take_append_eq_append_take, List.take_of_length_le hplen] at hd ⊢
    rcases List.mem_append.mp hd with hdP | hdR
    · have hdm : d ∈ (bucketOf (dedup cs) Category.technical).take (quotaTech cs)
          ++ (bucketOf (dedup cs) Category.behavioral).take
              (targetSize - quotaTech cs) :=
        mem_sortCands.mp hdP
      rcases List.mem_append.mp hdm with hdT | hdB
      · have hdcat : d.category = Category.technical :=
          (mem_bucketOf.mp (List.mem_of_mem_take hdT)).2
        have hcT : c ∈ bucketOf (dedup cs) Category.technical :=
          mem_bucketOf.mpr ⟨hc, hcat.trans hdcat⟩
        have hmem := mem_take_of_sorted (sorted_bucketOf _ _) hdT hcT hlt
        exact List.mem_append.mpr
          (Or.inl (mem_sortCands.mpr (List.mem_append.mpr (Or.inl hmem))))
      · have hdcat : d.category = Category.behavioral :=
          (mem_bucketOf.mp (List.mem_of_mem_take hdB)).2
        have hcB : c ∈ bucketOf (dedup cs) Category.behavioral :=
          mem_bucketOf.mpr ⟨hc, hcat.trans hdcat⟩
        have hmem := mem_take_of_sorted (sorted_bucketOf _ _) hdB hcB hlt
        exact List.mem_append.mpr
          (Or.inl (mem_sortCands.mpr (List.mem_append.mpr (Or.inr hmem))))
    · cases hcc : c.category with
      | technical =>
        have hcT : c ∈ bucketOf (dedup cs) Category.technical :=
          mem_bucketOf.mpr ⟨hc, hcc⟩
        rw [← List.take_append_drop (quotaTech cs)
          (bucketOf (dedup cs) Category.technical)] at hcT
        rcases List.mem_append.mp hcT with h | h
        · exact List.mem_append.mpr
            (Or.inl (mem_sortCands.mpr (List.mem_append.mpr (Or.inl h))))
        · have hcR : c ∈ rolloverOf cs :=
            mem_sortCands.mpr
              (List.mem_append.mpr (Or.inl (List.mem_append.mpr (Or.inl h))))
          exact List.mem_append.mpr
            (Or.inr (mem_take_of_sorted (sorted_sortCands _) hdR hcR hlt))
      | behavioral =>
        have hcB : c ∈ bucketOf (dedup cs) Category.behavioral :=
          mem_bucketOf.mpr ⟨hc, hcc⟩
        rw [← List.take_append_drop (targetSize - quotaTech cs)
          (bucketOf (dedup cs) Category.behavioral)] at hcB
        rcases List.mem_append.mp hcB with h | h
        · exact List.mem_append.mpr
            (Or.inl (mem_sortCands.mpr (List.mem_append.mpr (Or.inr h))))
        · have hcR : c ∈ rolloverOf cs :=
            mem_sortCands.mpr
              (List.mem_append.mpr (Or.inl (List.mem_append.mpr (Or.inr h))))
          exact List.mem_append.mpr
            (Or.inr (mem_take_of_sorted (sorted_sortCands _) hdR hcR hlt))
      | other =>
        have hcO : c ∈ bucketOf (dedup cs) Category.other :=
          mem_bucketOf.mpr ⟨hc, hcc⟩
        have hcR : c ∈ rolloverOf cs :=
          mem_sortCands.mpr (List.mem_append.mpr (Or.inr hcO))
        exact List.mem_append.mpr
          (Or.inr (mem_take_of_sorted (sorted_sortCands _) hdR hcR hlt))
  · rw [if_neg hbf] at hd ⊢
    exact mem_take_of_sorted (sorted_sortCands _) hd (mem_sortCands.mpr hc) hlt

end SHL

namespace SHL

/-- C5: appending additional candidates to the pool never excludes a
candidate `c` while a strictly worse-ranked unique candidate `d` of the
same category bucket is included: whenever `d` is in the output over the
extended pool and `c` is still among its unique candidates, `c` is in
the output too. -/
theorem rank_inclusion_monotone_in_bucket (cs extra : List ScoredCandidate)
    (c d : ScoredCandidate) (_hprev : c ∈ rank cs)
    (hstill : c ∈ dedup (cs ++ extra)) (hd : d ∈ rank (cs ++ extra))
    (hcat : c.category = d.category) (hworse : candLT c d) :
    c ∈ rank (cs ++ extra) :=
  rank_downward hd hstill hcat hworse

/-- A two-candidate technical pool. -/
def monoBase : List ScoredCandidate :=
  [⟨1, 1, Category.technical, Facet.general⟩,
   ⟨2, 2, Category.technical, Facet.general⟩]

/-- One more technical candidate appended to `monoBase`. -/
def monoExtra : List ScoredCandidate :=
  [⟨3, 3, Category.technical, Facet.general⟩]

theorem rank_inclusion_monotone_witness :
    (⟨1, 1, Category.technical, Facet.general⟩ : ScoredCandidate) ∈
      rank (monoBase ++ monoExtra) :=
  rank_inclusion_monotone_in_bucket monoBase monoExtra
    ⟨1, 1, Category.technical, Facet.general⟩
    ⟨2, 2, Category.technical, Facet.general⟩
    (by decide) (by decide) (by decide) (by decide) (by decide)

/-! ## Balance lemmas -/

theorem quotaTech_eq (cs : List ScoredCandidate) : quotaTech cs = 5 := by
  unfold quotaTech targetSize
  split <;> rfl

theorem countCat_append (l₁ l₂ : List ScoredCandidate) (cat : Category) :
    countCat (l₁ ++ l₂) cat = countCat l₁ cat + countCat l₂ cat := by
  unfold countCat
  rw [List.filter_append, List.length_append]

theorem countCat_perm {l₁ l₂ : List ScoredCandidate} (h : List.Perm l₁ l₂)
    (cat : Category) : countCat l₁ cat = countCat l₂ cat := by
  unfold countCat
  exact (h.filter _).length_eq

theorem countCat_all {l : List ScoredCandidate} {cat : Category}
    (h : ∀ x ∈ l, x.category = cat) : countCat l cat = l.length := by
  unfold countCat
  rw [List.filter_eq_self.mpr]
  intro a ha
  simpa using h a ha

theorem countCat_none {l : List ScoredCandidate} {cat : Category}
    (h : ∀ x ∈ l, x.category ≠ cat) : countCat l cat = 0 := by
  unfold countCat
  rw [List.filter_eq_nil_iff.mpr]
  · rfl
  · intro a ha
    simpa using h a ha

theorem length_take_bucket (u : List ScoredCandidate) (cat : Category) (n : Nat)
    (h : n ≤ (u.filter (fun x => x.category = cat)).length) :
    ((bucketOf u cat).take n).length = n := by
  rw [List.length_take, (perm_bucketOf u cat).length_eq]
  omega

end SHL

namespace SHL

/-- A pool with five unique technical-category and seven unique
behavioral-category candidates, all produced by the `general` facet
(no technical or behavioral facet was present in the query). -/
def skewedPool : List ScoredCandidate :=
  [⟨11, 1, Category.behavioral, Facet.general⟩,
   ⟨12, 2, Category.behavioral, Facet.general⟩,
   ⟨13, 3, Category.behavioral, Facet.general⟩,
   ⟨14, 4, Category.behavioral, Facet.general⟩,
   ⟨15, 5, Category.behavioral, Facet.general⟩,
   ⟨16, 6, Category.behavioral, Facet.general⟩,
   ⟨17, 7, Category.behavioral, Facet.general⟩,
   ⟨1, 21, Category.technical, Facet.general⟩,
   ⟨2, 22, Category.technical, Facet.general⟩,
   ⟨3, 23, Category.technical, Facet.general⟩,
   ⟨4, 24, Category.technical, Facet.general⟩,
   ⟨5, 25, Category.technical, Facet.general⟩]

/-- C2 counterexample: on `skewedPool` both category buckets hold at
least `targetSize / 2` unique candidates, yet the output split is 3
technical vs 7 behavioral — the counts differ by more than one.  (The
balancing quota only applies when both facet kinds were present in the
query; here every candidate came from the `general` facet.) -/
theorem rank_split_claim_fails_on_skewedPool :
    targetSize / 2 ≤ countCat (dedup skewedPool) Category.technical ∧
    targetSize / 2 ≤ countCat (dedup skewedPool) Category.behavioral ∧
    ¬(countCat (rank skewedPool) Category.technical ≤
        countCat (rank skewedPool) Category.behavioral + 1 ∧
      countCat (rank skewedPool) Category.behavioral ≤
        countCat (rank skewedPool) Category.technical + 1) := by
  decide

/-- C2 (amended): if additionally both facet kinds were present among
the candidates — as §4.3 step 3 requires for the quota to apply — and
each category bucket holds at least `targetSize / 2` unique candidates,
then the technical and behavioral counts of the result differ by at
most one. -/
theorem rank_balanced_split (cs : List ScoredCandidate)
    (hT : targetSize / 2 ≤ countCat (dedup cs) Category.technical)
    (hB : targetSize / 2 ≤ countCat (dedup cs) Category.behavioral)
    (hfT : cs.any (fun x => x.facet = Facet.technical) = true)
    (hfB : cs.any (fun x => x.facet = Facet.behavioral) = true) :
    countCat (rank cs) Category.technical ≤
        countCat (rank cs) Category.behavioral + 1 ∧
      countCat (rank cs) Category.behavioral ≤
        countCat (rank cs) Category.technical + 1 := by
  have hbf : bothFacets cs = true := by
    unfold bothFacets
    rw [hfT, hfB]
    rfl
  have h5 : targetSize / 2 = 5 := rfl
  rw [h5] at hT hB
  have htT : ((bucketOf (dedup cs) Category.technical).take (quotaTech cs)).length
      = 5 := by
    rw [quotaTech_eq]
    exact length_take_bucket _ _ 5 hT
  have htB : ((bucketOf (dedup cs) Category.behavioral).take
      (targetSize - quotaTech cs)).length = 5 := by
    rw [quotaTech_eq]
    exact length_take_bucket _ _ 5 hB
  have hcatT : ∀ x ∈ (bucketOf (dedup cs) Category.technical).take (quotaTech cs),
      x.category = Category.technical :=
    fun x hx => (mem_bucketOf.mp (List.mem_of_mem_take hx)).2
  have hcatB : ∀ x ∈ (bucketOf (dedup cs) Category.behavioral).take
      (targetSize - quotaTech cs), x.category = Category.behavioral :=
    fun x hx => (mem_bucketOf.mp (List.mem_of_mem_take hx)).2
  have hlenP : (primaryOf cs).length = targetSize := by
    unfold primaryOf sortCands
    rw [(List.perm_insertionSort candR _).length_eq, List.length_append, htT, htB]
    rfl
  have hr : rank cs = primaryOf cs := by
    unfold rank
    rw [if_pos hbf, List.take_append_eq_append_take,
      List.take_of_length_le (Nat.le_of_eq hlenP), hlenP]
    simp
  have hPT : countCat (primaryOf cs) Category.technical = 5 := by
    unfold primaryOf sortCands
    rw [countCat_perm (List.perm_insertionSort candR _), countCat_append,
      countCat_all hcatT, countCat_none (fun x hx => by rw [hcatB x hx]; decide),
      htT]
  have hPB : countCat (primaryOf cs) Category.behavioral = 5 := by
    unfold primaryOf sortCands
    rw [countCat_perm (List.perm_insertionSort candR _), countCat_append,
      countCat_all hcatB, countCat_none (fun x hx => by rw [hcatT x hx]; decide),
      htB]
  rw [hr, hPT, hPB]
  omega

/-- A pool with five unique technical and five unique behavioral
candidates in which both facet kinds were present. -/
def balancedPool : List ScoredCandidate :=
  [⟨1, 1, Category.technical, Facet.technical⟩,
   ⟨2, 2, Category.technical, Facet.technical⟩,
   ⟨3, 3, Category.technical, Facet.technical⟩,
   ⟨4, 4, Category.technical, Facet.technical⟩,
   ⟨5, 5, Category.technical, Facet.technical⟩,
   ⟨11, 1, Category.behavioral, Facet.behavioral⟩,
   ⟨12, 2, Category.behavioral, Facet.behavioral⟩,
   ⟨13, 3, Category.behavioral, Facet.behavioral⟩,
   ⟨14, 4, Category.behavioral, Facet.behavioral⟩,
   ⟨15, 5, Category.behavioral, Facet.behavioral⟩]

theorem rank_balanced_split_witness :
    countCat (rank balancedPool) Category.technical ≤
        countCat (rank balancedPool) Category.behavioral + 1 ∧
      countCat (rank balancedPool) Category.behavioral ≤
        countCat (rank balancedPool) Category.technical + 1 :=
  rank_balanced_split balancedPool (by decide) (by decide) (by decide) (by decide)

end SHL

namespace SHL

/-! ## Pipeline and frontend theorems -/

theorem retrieve_congr (idx idx' : SimilarityIndex)
    (hav : idx.available = idx'.available)
    (hnear : ∀ t, idx.nearest t = idx'.nearest t) (f : QueryFacets) :
    retrieve idx f = retrieve idx' f := by
  unfold retrieve
  rw [hav]
  by_cases h : idx'.available = true
  · rw [if_pos h, if_pos h]
    congr 1
    generalize f.facets = l
    induction l with
    | nil => rfl
    | cons p ps ih => simp [hnear, ih]
  · rw [if_neg h, if_neg h]

/-- C4: the pipeline is a deterministic, pure function of the input text,
the analyzer output and the observable index state — two runs with
identical input over indexes that agree on availability and
nearest-entry lookups produce identical ordered output. -/
theorem pipeline_deterministic (raw : String) (svc : Option QueryFacets)
    (idx idx' : SimilarityIndex) (hav : idx.available = idx'.available)
    (hnear : ∀ t, idx.nearest t = idx'.nearest t) :
    pipeline raw svc idx = pipeline raw svc idx' := by
  have h := retrieve_congr idx idx' hav hnear
  unfold pipeline
  simp only [h]

/-- An always-available index that returns no candidates. -/
def idxA : SimilarityIndex := ⟨true, fun _ => []⟩

/-- A second index observably equal to `idxA`. -/
def idxB : SimilarityIndex := ⟨true, fun _ => []⟩

theorem pipeline_deterministic_witness :
    pipeline "Java developer" none idxA = pipeline "Java developer" none idxB :=
  pipeline_deterministic "Java developer" none idxA idxB rfl (fun _ => rfl)

/-- C6: a query that is empty or consists only of whitespace fails with
`InvalidQuery` whatever the analyzer or index would answer (so no index
state can influence the outcome), and the frontend guard returns early
with only the error message set and the recommendation request never
made (the returned flag is `false`). -/
theorem blank_query_rejected (raw : String) (h : isBlank raw = true) :
    (∀ svc idx, pipeline raw svc idx = Except.error PipelineError.InvalidQuery) ∧
    (∀ st api, st.query = raw →
      handleSearch st api = ({ st with error := some emptyQueryMsg }, false)) := by
  constructor
  · intro svc idx
    have hA : analyze raw svc = Except.error PipelineError.InvalidQuery := by
      unfold analyze
      rw [if_pos h]
    simp only [pipeline, hA]
  · intro st api hq
    unfold handleSearch
    rw [if_pos (by rw [hq]; exact h)]

theorem blank_query_rejected_witness :
    (∀ svc idx, pipeline "   " svc idx =
      Except.error PipelineError.InvalidQuery) ∧
    (∀ st api, st.query = "   " →
      handleSearch st api = ({ st with error := some emptyQueryMsg }, false)) :=
  blank_query_rejected "   " (by decide)

theorem retrieve_zero {idx : SimilarityIndex} (hav : idx.available = true)
    (hzero : ∀ t, idx.nearest t = []) (f : QueryFacets) :
    retrieve idx f = Except.ok [] := by
  unfold retrieve
  rw [if_pos hav]
  congr 1
  generalize f.facets = l
  induction l with
  | nil => rfl
  | cons p ps ih => simp [hzero, ih]

/-- C7: a run that retrieves zero candidates produces a successful empty
result — not an error, hence distinguishable by the caller from every
fatal failure such as `RetrievalUnavailable` — and the frontend surfaces
it as a "no matches" message on the success path. -/
theorem empty_retrieval_is_success (idx : SimilarityIndex)
    (hav : idx.available = true) (hzero : ∀ t, idx.nearest t = [])
    (raw : String) (hblank : isBlank raw = false) (svc : Option QueryFacets) :
    pipeline raw svc idx = Except.ok [] ∧
    (∀ e, pipeline raw svc idx ≠ Except.error e) ∧
    (∀ st, isBlank st.query = false →
      (handleSearch st (ApiOutcome.success [])).1.results = [] ∧
      (handleSearch st (ApiOutcome.success [])).1.error = some noResultsMsg) := by
  have hA : ∃ f, analyze raw svc = Except.ok f := by
    unfold analyze
    rw [if_neg (by simp [hblank])]
    cases svc with
    | some f => exact ⟨f, rfl⟩
    | none => exact ⟨_, rfl⟩
  obtain ⟨f, hA⟩ := hA
  have hok : pipeline raw svc idx = Except.ok [] := by
    simp only [pipeline, hA, retrieve_zero hav hzero]
    rfl
  refine ⟨hok, ?_, ?_⟩
  · intro e hcontra
    rw [hok] at hcontra
    exact Except.noConfusion hcontra
  · intro st hst
    unfold handleSearch
    rw [if_neg (by simp [hst])]
    exact ⟨rfl, rfl⟩

theorem empty_retrieval_is_success_witness :
    pipeline "Java developer" none idxA = Except.ok [] ∧
    (∀ e, pipeline "Java developer" none idxA ≠ Except.error e) ∧
    (∀ st, isBlank st.query = false →
      (handleSearch st (ApiOutcome.success [])).1.results = [] ∧
      (handleSearch st (ApiOutcome.success [])).1.error = some noResultsMsg) :=
  empty_retrieval_is_success idxA rfl (fun _ => rfl) "Java developer" (by decide) none

/-- C8: every entry of the displayed output list is the projection of a
CatalogEntry carrying exactly its name, URL, category tags, duration,
remote-support flag, adaptive-support flag and short description. -/
theorem output_entries_are_projections (catalog : Nat → CatalogEntry)
    (cs : List ScoredCandidate) (a : Assessment)
    (h : a ∈ toResult catalog (rank cs)) :
    ∃ e : CatalogEntry, a = project e ∧ a.name = e.name ∧ a.url = e.url ∧
      a.test_type = e.test_type ∧ a.duration = e.duration ∧
      a.remote_support = e.remote_support ∧
      a.adaptive_support = e.adaptive_support ∧
      a.description = e.description := by
  obtain ⟨c, _, hc⟩ := List.mem_map.mp h
  subst hc
  exact ⟨catalog c.entryId, rfl, rfl, rfl, rfl, rfl, rfl, rfl, rfl⟩

/-- A sample catalog entry. -/
def exEntry : CatalogEntry :=
  ⟨1, "Java Test", "https://example.com/java", ["Knowledge & Skills"], 30,
    "Yes", "No", "Java knowledge assessment"⟩

/-- A one-entry catalog. -/
def exCatalog : Nat → CatalogEntry := fun _ => exEntry

/-- A one-candidate pool. -/
def exPool : List ScoredCandidate := [⟨1, 1, Category.technical, Facet.technical⟩]

theorem output_entries_are_projections_witness :
    ∃ e : CatalogEntry, project exEntry = project e ∧
      (project exEntry).name = e.name ∧ (project exEntry).url = e.url ∧
      (project exEntry).test_type = e.test_type ∧
      (project exEntry).duration = e.duration ∧
      (project exEntry).remote_support = e.remote_support ∧
      (project exEntry).adaptive_support = e.adaptive_support ∧
      (project exEntry).description = e.description :=
  output_entries_are_projections exCatalog exPool (project exEntry) (by decide)

/-- C9: when the recommendation request throws, the displayed results are
left unchanged (the previous query's results remain) and only the error
message is set from the thrown detail (or the fallback message); on a
successful response the results are replaced by the response body
unconditionally, the emptiness check only selecting the message. -/
theorem handleSearch_frame (st : AppState) (h : isBlank st.query = false) :
    (∀ detail,
      (handleSearch st (ApiOutcome.failure detail)).1.results = st.results ∧
      (handleSearch st (ApiOutcome.failure detail)).1.error =
        some (detail.getD fetchFailMsg) ∧
      (handleSearch st (ApiOutcome.failure detail)).1.query = st.query) ∧
    (∀ l, (handleSearch st (ApiOutcome.success l)).1.results = l ∧
      (handleSearch st (ApiOutcome.success l)).1.error =
        (if l.isEmpty then some noResultsMsg else none)) := by
  constructor
  · intro detail
    unfold handleSearch
    rw [if_neg (by simp [h])]
    exact ⟨rfl, rfl, rfl⟩
  · intro l
    unfold handleSearch
    rw [if_neg (by simp [h])]
    exact ⟨rfl, rfl⟩

/-- A state holding the previous query's results. -/
def exState : AppState := ⟨"Java developer", false, [project exEntry], none⟩

theorem handleSearch_frame_witness :
    (∀ detail,
      (handleSearch exState (ApiOutcome.failure detail)).1.results =
        exState.results ∧
      (handleSearch exState (ApiOutcome.failure detail)).1.error =
        some (detail.getD fetchFailMsg) ∧
      (handleSearch exState (ApiOutcome.failure detail)).1.query =
        exState.query) ∧
    (∀ l, (handleSearch exState (ApiOutcome.success l)).1.results = l ∧
      (handleSearch exState (ApiOutcome.success l)).1.error =
        (if l.isEmpty then some noResultsMsg else none)) :=
  handleSearch_frame exState (by decide)

/-- C10: the card renders the remote (resp. adaptive) support icon as
supported precisely when the `remote_support` (resp. `adaptive_support`)
string is exactly `"Yes"`; any other value — including `"yes"` or
`"true"` — gets the unsupported gray class. -/
theorem support_rendered_iff_exactly_yes (a : Assessment) :
    (remoteIconClass a = "text-green-500" ↔ a.remote_support = "Yes") ∧
    (remoteIconClass a = "text-gray-400" ↔ a.remote_support ≠ "Yes") ∧
    (adaptiveIconClass a = "text-purple-500" ↔ a.adaptive_support = "Yes") ∧
    (adaptiveIconClass a = "text-gray-400" ↔ a.adaptive_support ≠ "Yes") := by
  unfold remoteIconClass adaptiveIconClass
  by_cases h1 : a.remote_support = "Yes" <;>
    by_cases h2 : a.adaptive_support = "Yes" <;>
      simp [h1, h2]

end SHL
